import Mathlib

/-!
# Verification of the idempotency middleware

A shallow embedding of the Go idempotency-key middleware
(package `idempotency`, file `part_000`): a TTL cache (patrickmn/go-cache)
mapping idempotency keys to captured responses, and a coordinator
(`idempotencyAPI.ServeHTTP`) that admits exactly one executor per key via the
cache's atomic `Add`, runs the downstream handler under a response-capturing
wrapper (`respCatcher`), publishes the result with `Replace`, and lets
followers poll `Get` every 45 ms until the entry is ready.

Time is modelled in milliseconds as `Nat`.  Byte sequences are modelled as
`String`.  The go-cache store is modelled with lazy expiry exactly as the
library implements it for a positive default expiration: an item stored at
time `t` with TTL `d` carries expiration instant `t + d` and is treated as
absent once `now > t + d` (the library's zero/negative "never expire" cases
are not exercised by this middleware, whose default TTL is 30 s).

Concurrency is modelled as a small-step interleaving semantics: each inbound
request is a process with a program counter ranging over the atomic actions of
`ServeHTTP` (header checks + `Add`; handler invocation; `Replace`; one poll
iteration), and a scheduler picks which process moves or lets time advance by
one millisecond.  The cache's `Add`, `Get` and `Replace` each run under the
library's mutex, hence each is one atomic step.
-/

namespace Idempotency

/-- Go `http.Header`: a mapping from header name to list of values, as an
association list (map iteration order abstracted to list order). -/
abbrev Headers := List (String × List String)

/-- The cached value (Go struct `response`): ready flag, captured header set,
status code and body.  `Body = none` models a nil byte slice. -/
structure Response where
  Ready : Bool
  Header : Headers
  Status : Nat
  Body : Option String
deriving DecidableEq, Repr

/-- The zero value `&response{}` inserted at admission. -/
def pending0 : Response := ⟨false, [], 0, none⟩

/-- The ready entry the executor publishes from the capture wrapper's state. -/
def readyOf (status : Nat) (header : Headers) (body : Option String) : Response :=
  ⟨true, header, status, body⟩

/-- A value stored in the go-cache (Go `interface\x7b\x7d`).  The middleware only
ever stores `*response`; `raw` stands for any other dynamic type, on which
`getResponse`'s type assertion would fail. -/
inductive CacheVal where
  | resp (r : Response)
  | raw
deriving DecidableEq, Repr

/-- Association-list lookup over the cache's item map. -/
def lookupItems (k : String) : List (String × CacheVal × Nat) → Option (CacheVal × Nat)
  | [] => none
  | (k', v, e) :: rest => if k' = k then some (v, e) else lookupItems k rest

/-- The go-cache store: key ↦ (stored value, expiration instant). -/
structure Store where
  items : List (String × CacheVal × Nat)
deriving DecidableEq, Repr

/-- The empty cache produced by `cache.New`. -/
def Store.empty : Store := ⟨[]⟩

def Store.lookup (s : Store) (k : String) : Option (CacheVal × Nat) :=
  lookupItems k s.items

/-- go-cache `Get` at time `now`: an item is visible iff present and not
expired (`time.Now().UnixNano() > item.Expiration` means expired). -/
def Store.get (s : Store) (now : Nat) (k : String) : Option CacheVal :=
  match s.lookup k with
  | none => none
  | some (v, e) => if e < now then none else some v

/-- go-cache `set`: unconditionally store `v` under `k` with a fresh
expiration instant `now + ttl` (at most one item per key). -/
def Store.set (s : Store) (now ttl : Nat) (k : String) (v : CacheVal) : Store :=
  ⟨(k, v, now + ttl) :: s.items.filter (fun p => p.1 ≠ k)⟩

/-- go-cache `Add`: atomically, if a non-expired item exists under `k` report
failure (`inserted = false`) and leave the store untouched, else store `v`. -/
def Store.add (s : Store) (now ttl : Nat) (k : String) (v : CacheVal) :
    Store × Bool :=
  match s.get now k with
  | some _ => (s, false)
  | none => (s.set now ttl k v, true)

/-- go-cache `Replace`: atomically, if no non-expired item exists under `k`
report failure and leave the store untouched, else overwrite with `v`. -/
def Store.replace (s : Store) (now ttl : Nat) (k : String) (v : CacheVal) :
    Store × Bool :=
  match s.get now k with
  | none => (s, false)
  | some _ => (s.set now ttl k v, true)

/-- `idempotencyAPI.getResponse`: `Get` followed by the `*response` type
assertion; both failure branches return the same error, modelled as `none`. -/
def getResponse (s : Store) (now : Nat) (ik : String) : Option Response :=
  match s.get now ik with
  | none => none
  | some (.resp r) => some r
  | some .raw => none

/-! ## Configuration constants (source file header) -/

/-- `DefExpiration = 30 * time.Second`, in milliseconds. -/
def DefExpiration : Nat := 30000

/-- `DefCleanupInterval = 1 * time.Minute`, in milliseconds. -/
def DefCleanupInterval : Nat := 60000

/-- `DefMinIKLength = 32`. -/
def DefMinIKLength : Nat := 32

/-- The follower's fixed inter-poll delay `time.Sleep(45 * time.Millisecond)`. -/
def pollDelay : Nat := 45

/-- Configuration supplied to `APIWithConfig`. -/
structure Config where
  ttl : Nat
  minIKLen : Nat
deriving DecidableEq, Repr

/-! ## Error responses -/

/-- `http.StatusText` for the codes this middleware uses. -/
def statusText (status : Nat) : String :=
  if status = 400 then "Bad Request"
  else if status = 500 then "Internal Server Error"
  else ""

/-- The observable response a caller receives: status, headers, and the bytes
written to the body (an unwritten body observes as `""`). -/
structure Output where
  status : Nat
  header : Headers
  body : String
deriving DecidableEq, Repr

/-- `http.Error(w, msg, status)`: replies with the given status code and the
message as body (the stdlib's trailing newline and error headers are
abstracted away; the message itself is the body). -/
def httpError (msg : String) (status : Nat) : Output :=
  ⟨status, [], msg⟩

/-- `idempotencyAPI.responseError`: when `msg` is empty the code evaluates
`http.StatusText(status)` but discards the result, so `http.Error` always
receives `msg` unchanged. -/
def responseError (msg : String) (status : Nat) : Output :=
  let _discarded := if msg = "" then statusText status else ""
  httpError msg status

/-- Body of the 400 response for a missing `Idempotency-Key` header. -/
def missingKeyMsg : String := "missing header: Idempotency-Key"

/-- Body of the 400 response for a too-short key:
`fmt.Sprintf("Minimum idempotency key length: %d", minIKLen)`. -/
def minIKLenMsg (n : Nat) : String :=
  "Minimum idempotency key length: " ++ toString n

/-! ## The response-capturing wrapper `respCatcher` -/

/-- A call the downstream handler makes on its `http.ResponseWriter`. -/
inductive WAction where
  | writeHeader (code : Nat)
  | write (p : String)
deriving DecidableEq, Repr

/-- The wrapper's own state: the buffered body copy and the recorded status
code (initialised to `http.StatusOK`). -/
structure RespCatcher where
  body : String
  statusCode : Nat
deriving DecidableEq, Repr

/-- `&respCatcher\x7bw, &bytes.Buffer\x7b\x7d, http.StatusOK\x7d`. -/
def initCatcher : RespCatcher := ⟨"", 200⟩

/-- One call on the wrapper: `WriteHeader` records the code and forwards;
`Write` appends to the buffer and forwards.  The second component is the call
forwarded to the real `http.ResponseWriter`. -/
def catchStep (rc : RespCatcher) (a : WAction) : RespCatcher × WAction :=
  match a with
  | .writeHeader c => (⟨rc.body, c⟩, .writeHeader c)
  | .write p => (⟨rc.body ++ p, rc.statusCode⟩, .write p)

/-- Run the wrapper over the handler's whole call sequence, returning the
final capture state and the list of calls forwarded to the real writer. -/
def runCatcher (rc : RespCatcher) : List WAction → RespCatcher × List WAction
  | [] => (rc, [])
  | a :: rest =>
    let s := catchStep rc a
    let t := runCatcher s.1 rest
    (t.1, s.2 :: t.2)

/-- The body bytes a call sequence writes. -/
def writesOf : List WAction → String
  | [] => ""
  | .write p :: rest => p ++ writesOf rest
  | .writeHeader _ :: rest => writesOf rest

/-! ## The coordinator as a small-step interleaving system -/

/-- What the downstream handler produced, as observed through the capture
wrapper after it returns: final status code (200 if it never called
`WriteHeader`), the header map as finally observed, and the buffered body
(`none` models a nil `Bytes()` of an untouched buffer). -/
structure HandlerResult where
  status : Nat
  header : Headers
  body : Option String
deriving DecidableEq, Repr

/-- One inbound request: its `Idempotency-Key` header value (`""` models an
absent header, as `r.Header.Get` returns) and the result its handler
invocation would produce. -/
structure Request where
  ik : String
  hres : HandlerResult
deriving DecidableEq, Repr

/-- The executor's caller sees the handler's writes forwarded live. -/
def execOut (res : HandlerResult) : Output :=
  ⟨res.status, res.header, res.body.getD ""⟩

/-- A follower replays a ready entry: copy all headers, write the status,
write the body if non-nil. -/
def replayOut (r : Response) : Output :=
  ⟨r.Status, r.Header, r.Body.getD ""⟩

/-- Program counter of one request inside `ServeHTTP`. -/
inductive RState where
  | start
  | runH
  | publish (res : HandlerResult)
  | poll
  | done (out : Output)
deriving DecidableEq, Repr

/-- A request process: its request, program counter, number of handler
invocations it has performed, and total milliseconds it has slept. -/
structure Proc where
  req : Request
  st : RState
  invoked : Nat
  slept : Nat
deriving DecidableEq, Repr

/-- One atomic step of a process against the shared store at time `now`.
From `start`: the two header checks, then the atomic `Add` that decides
executor vs follower.  `runH`: invoke the handler (its writes reach the
executor's caller live).  `publish`: the `Replace` call (its error is
discarded by the code).  `poll`: one `getResponse`, branching exactly as the
follower loop does, sleeping 45 ms before the next poll when not ready. -/
def stepProc (cfg : Config) (store : Store) (now : Nat) (p : Proc) :
    Store × Proc :=
  match p.st with
  | .start =>
    if p.req.ik = "" then
      (store, { p with st := .done (responseError missingKeyMsg 400) })
    else if p.req.ik.length < cfg.minIKLen then
      (store,
       { p with st := .done (responseError (minIKLenMsg cfg.minIKLen) 400) })
    else
      let r := store.add now cfg.ttl p.req.ik (.resp pending0)
      if r.2 then (r.1, { p with st := .runH })
      else (r.1, { p with st := .poll })
  | .runH =>
    (store, { p with st := .publish p.req.hres, invoked := p.invoked + 1 })
  | .publish res =>
    let r := store.replace now cfg.ttl p.req.ik
      (.resp (readyOf res.status res.header res.body))
    (r.1, { p with st := .done (execOut res) })
  | .poll =>
    match getResponse store now p.req.ik with
    | none => (store, { p with st := .done (responseError "" 500) })
    | some r =>
      if r.Ready then (store, { p with st := .done (replayOut r) })
      else (store, { p with st := .poll, slept := p.slept + pollDelay })
  | .done _ => (store, p)

/-- Global state: the shared cache, the current time, and `nprocs` request
processes. -/
structure Sys where
  store : Store
  now : Nat
  nprocs : Nat
  procs : Nat → Proc

/-- A scheduler action: let process `i` take its next atomic step, or let one
millisecond elapse. -/
inductive Action where
  | proc (i : Nat)
  | tick
deriving DecidableEq, Repr

def stepSys (cfg : Config) (s : Sys) (a : Action) : Sys :=
  match a with
  | .tick => { s with now := s.now + 1 }
  | .proc i =>
    if i < s.nprocs then
      let r := stepProc cfg s.store s.now (s.procs i)
      { s with store := r.1, procs := Function.update s.procs i r.2 }
    else s

def runSys (cfg : Config) (s : Sys) : List Action → Sys
  | [] => s
  | a :: rest => runSys cfg (stepSys cfg s a) rest

/-- All `n` processes start at `ServeHTTP` entry against a fresh cache. -/
def initSys (n : Nat) (req : Nat → Request) : Sys :=
  ⟨Store.empty, 0, n, fun i => ⟨req i, .start, 0, 0⟩⟩

/-- Number of `tick` actions in a schedule (total elapsed milliseconds). -/
def countTicks : List Action → Nat
  | [] => 0
  | .tick :: rest => countTicks rest + 1
  | .proc _ :: rest => countTicks rest

/-- Iterate a single process's step while the rest of the system is idle. -/
def iterStep (cfg : Config) (store : Store) (now : Nat) (p : Proc) :
    Nat → Store × Proc
  | 0 => (store, p)
  | n + 1 =>
    let r := stepProc cfg store now p
    iterStep cfg r.1 now r.2 n

/-! ## Basic lemmas about the store and single steps -/

lemma get_set (s : Store) (now ttl : Nat) (k : String) (v : CacheVal) :
    (s.set now ttl k v).get now k = some v := by
  simp [Store.set, Store.get, Store.lookup, lookupItems]

lemma stepProc_req (cfg : Config) (store : Store) (now : Nat) (p : Proc) :
    ((stepProc cfg store now p).2).req = p.req := by
  obtain ⟨rq, st, inv, sl⟩ := p
  cases st <;> simp only [stepProc] <;> (repeat' split) <;> rfl

lemma stepProc_done (cfg : Config) (store : Store) (now : Nat) (p : Proc)
    (out : Output) (h : p.st = .done out) :
    stepProc cfg store now p = (store, p) := by
  unfold stepProc
  rw [h]

/-- Generic preservation principle for invariants of the scheduled system. -/
lemma runSys_inv (cfg : Config) {P : Sys → Prop}
    (hstep : ∀ s a, P s → P (stepSys cfg s a)) :
    ∀ as s, P s → P (runSys cfg s as) := by
  intro as
  induction as with
  | nil => intro s h; exact h
  | cons a rest ih => intro s h; exact ih _ (hstep s a h)

lemma stepSys_nprocs (cfg : Config) (s : Sys) (a : Action) :
    (stepSys cfg s a).nprocs = s.nprocs := by
  cases a <;> simp only [stepSys]
  split <;> rfl

lemma runSys_nprocs (cfg : Config) (as : List Action) (s : Sys) :
    (runSys cfg s as).nprocs = s.nprocs := by
  induction as generalizing s with
  | nil => rfl
  | cons a rest ih => rw [runSys, ih, stepSys_nprocs]

lemma stepProc_start_noik (cfg : Config) (store : Store) (now : Nat) (p : Proc)
    (hst : p.st = .start) (hik : p.req.ik = "") :
    stepProc cfg store now p =
      (store, { p with st := .done (responseError missingKeyMsg 400) }) := by
  unfold stepProc
  rw [hst]
  simp [hik]

lemma stepProc_start_short (cfg : Config) (store : Store) (now : Nat) (p : Proc)
    (hst : p.st = .start) (h1 : p.req.ik ≠ "")
    (h2 : p.req.ik.length < cfg.minIKLen) :
    stepProc cfg store now p =
      (store,
       { p with st := .done (responseError (minIKLenMsg cfg.minIKLen) 400) }) := by
  unfold stepProc
  rw [hst]
  simp [h1, h2]

lemma stepProc_start_fresh (cfg : Config) (store : Store) (now : Nat) (p : Proc)
    (hst : p.st = .start) (h1 : p.req.ik ≠ "")
    (h2 : ¬ p.req.ik.length < cfg.minIKLen)
    (hget : store.get now p.req.ik = none) :
    stepProc cfg store now p =
      (store.set now cfg.ttl p.req.ik (.resp pending0),
       { p with st := .runH }) := by
  unfold stepProc
  rw [hst]
  simp [h1, h2, Store.add, hget]

lemma stepProc_start_dup (cfg : Config) (store : Store) (now : Nat) (p : Proc)
    (v : CacheVal) (hst : p.st = .start) (h1 : p.req.ik ≠ "")
    (h2 : ¬ p.req.ik.length < cfg.minIKLen)
    (hget : store.get now p.req.ik = some v) :
    stepProc cfg store now p = (store, { p with st := .poll }) := by
  unfold stepProc
  rw [hst]
  simp [h1, h2, Store.add, hget]

lemma stepProc_runH (cfg : Config) (store : Store) (now : Nat) (p : Proc)
    (hst : p.st = .runH) :
    stepProc cfg store now p =
      (store,
       { p with st := .publish p.req.hres, invoked := p.invoked + 1 }) := by
  unfold stepProc
  rw [hst]

lemma stepProc_publish (cfg : Config) (store : Store) (now : Nat) (p : Proc)
    (res : HandlerResult) (hst : p.st = .publish res) :
    stepProc cfg store now p =
      ((store.replace now cfg.ttl p.req.ik
          (.resp (readyOf res.status res.header res.body))).1,
       { p with st := .done (execOut res) }) := by
  unfold stepProc
  rw [hst]

lemma stepProc_poll_lost (cfg : Config) (store : Store) (now : Nat) (p : Proc)
    (hst : p.st = .poll) (hget : getResponse store now p.req.ik = none) :
    stepProc cfg store now p =
      (store, { p with st := .done (responseError "" 500) }) := by
  unfold stepProc
  rw [hst]
  simp [hget]

lemma stepProc_poll_ready (cfg : Config) (store : Store) (now : Nat) (p : Proc)
    (r : Response) (hst : p.st = .poll)
    (hget : getResponse store now p.req.ik = some r) (hr : r.Ready = true) :
    stepProc cfg store now p =
      (store, { p with st := .done (replayOut r) }) := by
  unfold stepProc
  rw [hst]
  simp [hget, hr]

lemma stepProc_poll_pending (cfg : Config) (store : Store) (now : Nat)
    (p : Proc) (r : Response) (hst : p.st = .poll)
    (hget : getResponse store now p.req.ik = some r) (hr : r.Ready = false) :
    stepProc cfg store now p =
      (store, { p with st := .poll, slept := p.slept + pollDelay }) := by
  unfold stepProc
  rw [hst]
  simp [hget, hr]

/-! ## Requests rejected at the header checks (claims about 400 paths) -/

/-- Invariant of a process whose request the header checks reject with `out`:
its request is unchanged, it is still at `ServeHTTP` entry or terminally done
with `out`, and it has never invoked the downstream handler. -/
def RejectedAt (i : Nat) (rq : Request) (out : Output) (s : Sys) : Prop :=
  (s.procs i).req = rq ∧
  ((s.procs i).st = .start ∨ (s.procs i).st = .done out) ∧
  (s.procs i).invoked = 0

lemma rejected_step (cfg : Config) (i : Nat) (rq : Request) (out : Output)
    (hrej : ∀ store now p, p.st = .start → p.req = rq →
      stepProc cfg store now p = (store, { p with st := .done out }))
    (s : Sys) (a : Action) (h : RejectedAt i rq out s) :
    RejectedAt i rq out (stepSys cfg s a) := by
  obtain ⟨hreq, hst, hinv⟩ := h
  cases a with
  | tick => exact ⟨hreq, hst, hinv⟩
  | proc j =>
    simp only [stepSys]
    split
    · rcases eq_or_ne i j with hij | hij
      · subst hij
        rcases hst with h1 | h1
        · rw [hrej s.store s.now (s.procs i) h1 hreq]
          exact ⟨by simp [hreq], Or.inr (by simp), by simp [hinv]⟩
        · rw [stepProc_done cfg s.store s.now (s.procs i) out h1]
          exact ⟨by simp [hreq], Or.inr (by simp [h1]), by simp [hinv]⟩
      · exact ⟨by simp [Function.update_noteq hij, hreq],
          by simpa [Function.update_noteq hij] using hst,
          by simp [Function.update_noteq hij, hinv]⟩
    · exact ⟨hreq, hst, hinv⟩

lemma rejected_store (cfg : Config) (i : Nat) (rq : Request) (out : Output)
    (hrej : ∀ store now p, p.st = .start → p.req = rq →
      stepProc cfg store now p = (store, { p with st := .done out }))
    (s : Sys) (h : RejectedAt i rq out s) :
    (stepSys cfg s (.proc i)).store = s.store := by
  obtain ⟨hreq, hst, hinv⟩ := h
  simp only [stepSys]
  split
  · rcases hst with h1 | h1
    · rw [hrej s.store s.now (s.procs i) h1 hreq]
    · rw [stepProc_done cfg s.store s.now (s.procs i) out h1]
  · rfl

/-! ## Claim theorems -/

/-- C6: a request whose `Idempotency-Key` header is absent (the empty header
value) is answered 400 Bad Request with body
`"missing header: Idempotency-Key"`; in any schedule the process never
invokes the downstream handler, is only ever at entry or terminally done with
that 400, and its step never modifies the store. -/
theorem missingHeaderRejected (cfg : Config) (n : Nat) (req : Nat → Request)
    (as : List Action) (i : Nat) (hik : (req i).ik = "") :
    (((runSys cfg (initSys n req) as).procs i).st = .start ∨
      ((runSys cfg (initSys n req) as).procs i).st =
        .done (responseError missingKeyMsg 400)) ∧
    ((runSys cfg (initSys n req) as).procs i).invoked = 0 ∧
    (stepSys cfg (runSys cfg (initSys n req) as) (.proc i)).store =
      (runSys cfg (initSys n req) as).store ∧
    responseError missingKeyMsg 400 =
      ⟨400, [], "missing header: Idempotency-Key"⟩ := by
  have hrej : ∀ store now p, p.st = .start → p.req = req i →
      stepProc cfg store now p =
        (store, { p with st := .done (responseError missingKeyMsg 400) }) := by
    intro store now p h1 h2
    exact stepProc_start_noik cfg store now p h1 (by rw [h2]; exact hik)
  have hinv : RejectedAt i (req i) (responseError missingKeyMsg 400)
      (runSys cfg (initSys n req) as) :=
    runSys_inv cfg (rejected_step cfg i (req i) _ hrej) as _
      ⟨rfl, Or.inl rfl, rfl⟩
  exact ⟨hinv.2.1, hinv.2.2, rejected_store cfg i (req i) _ hrej _ hinv, rfl⟩

theorem missingHeaderRejected_w :
    ((runSys ⟨30000, 32⟩ (initSys 1 fun _ => ⟨"", ⟨200, [], none⟩⟩)
        [.proc 0]).procs 0).invoked = 0 ∧
    responseError missingKeyMsg 400 =
      ⟨400, [], "missing header: Idempotency-Key"⟩ :=
  ⟨(missingHeaderRejected ⟨30000, 32⟩ 1 (fun _ => ⟨"", ⟨200, [], none⟩⟩)
      [.proc 0] 0 rfl).2.1,
   (missingHeaderRejected ⟨30000, 32⟩ 1 (fun _ => ⟨"", ⟨200, [], none⟩⟩)
      [.proc 0] 0 rfl).2.2.2⟩

/-- C5: a request whose `Idempotency-Key` header is present but shorter than
the configured minimum (default 32) is answered 400 Bad Request with body
`"Minimum idempotency key length: <N>"`; in any schedule the process never
invokes the downstream handler, is only ever at entry or terminally done with
that 400, and its step never modifies the store. -/
theorem shortKeyRejected (cfg : Config) (n : Nat) (req : Nat → Request)
    (as : List Action) (i : Nat) (h1 : (req i).ik ≠ "")
    (h2 : (req i).ik.length < cfg.minIKLen) :
    (((runSys cfg (initSys n req) as).procs i).st = .start ∨
      ((runSys cfg (initSys n req) as).procs i).st =
        .done (responseError (minIKLenMsg cfg.minIKLen) 400)) ∧
    ((runSys cfg (initSys n req) as).procs i).invoked = 0 ∧
    (stepSys cfg (runSys cfg (initSys n req) as) (.proc i)).store =
      (runSys cfg (initSys n req) as).store ∧
    responseError (minIKLenMsg cfg.minIKLen) 400 =
      ⟨400, [],
       "Minimum idempotency key length: " ++ toString cfg.minIKLen⟩ ∧
    DefMinIKLength = 32 := by
  have hrej : ∀ store now p, p.st = .start → p.req = req i →
      stepProc cfg store now p =
        (store,
         { p with st := .done (responseError (minIKLenMsg cfg.minIKLen) 400) }) := by
    intro store now p hs hr
    exact stepProc_start_short cfg store now p hs (by rw [hr]; exact h1)
      (by rw [hr]; exact h2)
  have hinv : RejectedAt i (req i) (responseError (minIKLenMsg cfg.minIKLen) 400)
      (runSys cfg (initSys n req) as) :=
    runSys_inv cfg (rejected_step cfg i (req i) _ hrej) as _
      ⟨rfl, Or.inl rfl, rfl⟩
  exact ⟨hinv.2.1, hinv.2.2, rejected_store cfg i (req i) _ hrej _ hinv,
    rfl, rfl⟩

theorem shortKeyRejected_w :
    ((runSys ⟨30000, 32⟩ (initSys 1 fun _ => ⟨"short", ⟨200, [], none⟩⟩)
        [.proc 0]).procs 0).invoked = 0 ∧
    responseError (minIKLenMsg 32) 400 =
      ⟨400, [], "Minimum idempotency key length: " ++ toString 32⟩ :=
  ⟨(shortKeyRejected ⟨30000, 32⟩ 1 (fun _ => ⟨"short", ⟨200, [], none⟩⟩)
      [.proc 0] 0 (by decide) (by decide)).2.1,
   (shortKeyRejected ⟨30000, 32⟩ 1 (fun _ => ⟨"short", ⟨200, [], none⟩⟩)
      [.proc 0] 0 (by decide) (by decide)).2.2.2.1⟩

/-- C2: a follower whose poll observes a ready entry for its key terminates
with a response that is bit-identical to the captured one: the very same
status code, header set and body bytes stored in the entry, and the store is
left untouched. -/
theorem followerReplayBitIdentical (cfg : Config) (store : Store) (now : Nat)
    (p : Proc) (r : Response) (hst : p.st = .poll)
    (hget : store.get now p.req.ik = some (.resp r)) (hr : r.Ready = true) :
    stepProc cfg store now p =
      (store, { p with st := .done ⟨r.Status, r.Header, r.Body.getD ""⟩ }) := by
  have h : getResponse store now p.req.ik = some r := by
    simp [getResponse, hget]
  exact stepProc_poll_ready cfg store now p r hst h hr

theorem followerReplayBitIdentical_w :
    stepProc ⟨30000, 32⟩
        ⟨[("k", .resp ⟨true, [("X", ["1"])], 201, some "body"⟩, 100)]⟩ 50
        ⟨⟨"k", ⟨200, [], none⟩⟩, .poll, 0, 0⟩ =
      (⟨[("k", .resp ⟨true, [("X", ["1"])], 201, some "body"⟩, 100)]⟩,
       ⟨⟨"k", ⟨200, [], none⟩⟩, .done ⟨201, [("X", ["1"])], "body"⟩, 0, 0⟩) :=
  followerReplayBitIdentical ⟨30000, 32⟩
    ⟨[("k", .resp ⟨true, [("X", ["1"])], 201, some "body"⟩, 100)]⟩ 50
    ⟨⟨"k", ⟨200, [], none⟩⟩, .poll, 0, 0⟩ ⟨true, [("X", ["1"])], 201, some "body"⟩
    rfl (by decide) rfl

/-- C3: after the handler returns with result `res` — whatever its status,
success or error — the executor's next step calls `Replace`, and provided the
key's entry is still present and unexpired, the store thereafter holds the
ready entry with exactly the captured status, headers and body; the executor
finishes with that same observable output, and a follower replaying the
published entry emits exactly the executor's output. -/
theorem executorAlwaysPublishes (cfg : Config) (store : Store) (now : Nat)
    (p : Proc) (res : HandlerResult) (v : CacheVal)
    (hst : p.st = .publish res) (hv : store.get now p.req.ik = some v) :
    (stepProc cfg store now p).2 = { p with st := .done (execOut res) } ∧
    (stepProc cfg store now p).1.get now p.req.ik =
      some (.resp ⟨true, res.header, res.status, res.body⟩) ∧
    replayOut ⟨true, res.header, res.status, res.body⟩ = execOut res := by
  rw [stepProc_publish cfg store now p res hst]
  refine ⟨rfl, ?_, rfl⟩
  have hrep : store.replace now cfg.ttl p.req.ik
      (.resp (readyOf res.status res.header res.body)) =
      (store.set now cfg.ttl p.req.ik
        (.resp (readyOf res.status res.header res.body)), true) := by
    simp [Store.replace, hv]
  rw [hrep]
  exact get_set store now cfg.ttl p.req.ik
    (.resp (readyOf res.status res.header res.body))

theorem executorAlwaysPublishes_w :
    (stepProc ⟨30000, 32⟩ ⟨[("k", .resp pending0, 30000)]⟩ 7
        ⟨⟨"k", ⟨500, [], some "boom"⟩⟩, .publish ⟨500, [], some "boom"⟩, 1, 0⟩).1.get
        7 "k" = some (.resp ⟨true, [], 500, some "boom"⟩) ∧
    replayOut ⟨true, [], 500, some "boom"⟩ = execOut ⟨500, [], some "boom"⟩ :=
  ⟨(executorAlwaysPublishes ⟨30000, 32⟩ ⟨[("k", .resp pending0, 30000)]⟩ 7
      ⟨⟨"k", ⟨500, [], some "boom"⟩⟩, .publish ⟨500, [], some "boom"⟩, 1, 0⟩
      ⟨500, [], some "boom"⟩ (.resp pending0) rfl (by decide)).2.1,
   (executorAlwaysPublishes ⟨30000, 32⟩ ⟨[("k", .resp pending0, 30000)]⟩ 7
      ⟨⟨"k", ⟨500, [], some "boom"⟩⟩, .publish ⟨500, [], some "boom"⟩, 1, 0⟩
      ⟨500, [], some "boom"⟩ (.resp pending0) rfl (by decide)).2.2⟩

/-- C4: the follower loop has a fixed 45 ms inter-poll delay and no timeout:
as long as the entry stays pending, any number `n` of further iterations
leaves the process still polling with `45 * n` more milliseconds slept (it
never exits by timing out); and the moment the entry disappears from the
store the follower terminates with a 500 Internal Server Error, from which a
further step changes nothing (no retry). -/
theorem followerPollLoop (cfg : Config) :
    (∀ store now (p : Proc) (r : Response) (n : Nat), p.st = .poll →
       store.get now p.req.ik = some (.resp r) → r.Ready = false →
       iterStep cfg store now p n =
         (store, { p with st := .poll, slept := p.slept + pollDelay * n })) ∧
    (∀ store now (p : Proc), p.st = .poll →
       getResponse store now p.req.ik = none →
       stepProc cfg store now p =
         (store, { p with st := .done (responseError "" 500) }) ∧
       (responseError "" 500).status = 500 ∧
       stepProc cfg store now { p with st := .done (responseError "" 500) } =
         (store, { p with st := .done (responseError "" 500) })) ∧
    pollDelay = 45 := by
  refine ⟨?_, ?_, rfl⟩
  · intro store now p r n hst hget hr
    induction n generalizing p with
    | zero =>
      obtain ⟨rq, st, inv, sl⟩ := p
      simp only at hst
      subst hst
      simp [iterStep]
    | succ n ih =>
      have hgr : getResponse store now p.req.ik = some r := by
        simp [getResponse, hget]
      rw [iterStep]
      simp only [stepProc_poll_pending cfg store now p r hst hgr hr]
      rw [ih { p with st := .poll, slept := p.slept + pollDelay } rfl hget]
      obtain ⟨rq, st, inv, sl⟩ := p
      simp [Nat.mul_succ]
      omega
  · intro store now p hst hget
    refine ⟨stepProc_poll_lost cfg store now p hst hget, rfl, ?_⟩
    exact stepProc_done cfg store now _ (responseError "" 500) rfl

theorem followerPollLoop_w :
    iterStep ⟨30000, 32⟩ ⟨[("k", .resp pending0, 30000)]⟩ 0
        ⟨⟨"k", ⟨200, [], none⟩⟩, .poll, 0, 0⟩ 2 =
      (⟨[("k", .resp pending0, 30000)]⟩,
       ⟨⟨"k", ⟨200, [], none⟩⟩, .poll, 0, 0 + pollDelay * 2⟩) ∧
    stepProc ⟨30000, 32⟩ ⟨[]⟩ 0 ⟨⟨"k", ⟨200, [], none⟩⟩, .poll, 0, 0⟩ =
      (⟨[]⟩, ⟨⟨"k", ⟨200, [], none⟩⟩, .done (responseError "" 500), 0, 0⟩) ∧
    pollDelay = 45 :=
  ⟨(followerPollLoop ⟨30000, 32⟩).1 ⟨[("k", .resp pending0, 30000)]⟩ 0
      ⟨⟨"k", ⟨200, [], none⟩⟩, .poll, 0, 0⟩ pending0 2 rfl (by decide) rfl,
   ((followerPollLoop ⟨30000, 32⟩).2.1 ⟨[]⟩ 0
      ⟨⟨"k", ⟨200, [], none⟩⟩, .poll, 0, 0⟩ rfl rfl).1,
   (followerPollLoop ⟨30000, 32⟩).2.2⟩

/-- C7: the capture wrapper forwards every `WriteHeader` and `Write` call to
the real `ResponseWriter` unchanged and in order, accumulates a buffered copy
of exactly the written body bytes, and starts from status code 200
(`http.StatusOK`), so a handler that never calls `WriteHeader` is captured
with status 200. -/
theorem respCatcherSpec :
    (∀ (rc : RespCatcher) (acts : List WAction),
       (runCatcher rc acts).2 = acts) ∧
    (∀ (rc : RespCatcher) (acts : List WAction),
       (runCatcher rc acts).1.body = rc.body ++ writesOf acts) ∧
    (∀ (rc : RespCatcher) (acts : List WAction),
       (∀ c, WAction.writeHeader c ∉ acts) →
       (runCatcher rc acts).1.statusCode = rc.statusCode) ∧
    initCatcher.statusCode = 200 := by
  refine ⟨?_, ?_, ?_, rfl⟩
  · intro rc acts
    induction acts generalizing rc with
    | nil => rfl
    | cons a rest ih =>
      cases a <;> simp [runCatcher, catchStep, ih]
  · intro rc acts
    induction acts generalizing rc with
    | nil => simp [runCatcher, writesOf]
    | cons a rest ih =>
      cases a with
      | writeHeader c => simp [runCatcher, catchStep, writesOf, ih]
      | write q =>
        simp [runCatcher, catchStep, writesOf, ih]
        simp [String.append_assoc]
  · intro rc acts h
    induction acts generalizing rc with
    | nil => rfl
    | cons a rest ih =>
      cases a with
      | writeHeader c => exact absurd (List.mem_cons_self _ _) (h c)
      | write q =>
        simp only [runCatcher, catchStep]
        exact ih ⟨rc.body ++ q, rc.statusCode⟩
          fun c hc => h c (List.mem_cons_of_mem _ hc)

theorem respCatcherSpec_w :
    (runCatcher initCatcher [.write "ab", .write "c"]).1.statusCode = 200 ∧
    (runCatcher initCatcher [.write "ab", .write "c"]).1.body =
      "" ++ writesOf [.write "ab", .write "c"] ∧
    (runCatcher initCatcher [.write "ab", .write "c"]).2 =
      [.write "ab", .write "c"] :=
  ⟨(respCatcherSpec.2.2.1 initCatcher [.write "ab", .write "c"]
      (by intro c; simp)).trans respCatcherSpec.2.2.2,
   respCatcherSpec.2.1 initCatcher [.write "ab", .write "c"],
   respCatcherSpec.1 initCatcher [.write "ab", .write "c"]⟩

/-- C8: once the entry under a key has passed its expiration instant
(written at `t0`, expiring at `t0 + ttl`, with `now` beyond it), a new
request carrying that key is admitted afresh — even if the stale entry was
any stored value, including a still-pending one: its insert-if-absent
succeeds, a fresh pending entry appears, and its next step invokes the
downstream handler again; the default TTL is 30 s. -/
theorem expiredKeyFreshAdmission (cfg : Config) (store : Store) (now : Nat)
    (p : Proc) (t0 : Nat) (v : CacheVal)
    (h1 : p.req.ik ≠ "") (h2 : ¬ p.req.ik.length < cfg.minIKLen)
    (hst : p.st = .start)
    (hlk : store.lookup p.req.ik = some (v, t0 + cfg.ttl))
    (hexp : t0 + cfg.ttl < now) :
    (stepProc cfg store now p).2.st = .runH ∧
    (stepProc cfg store now p).1.get now p.req.ik = some (.resp pending0) ∧
    (stepProc cfg (stepProc cfg store now p).1 now
        (stepProc cfg store now p).2).2.invoked = p.invoked + 1 ∧
    (stepProc cfg (stepProc cfg store now p).1 now
        (stepProc cfg store now p).2).2.st = .publish p.req.hres ∧
    DefExpiration = 30000 := by
  have hget : store.get now p.req.ik = none := by
    simp [Store.get, hlk, hexp]
  rw [stepProc_start_fresh cfg store now p hst h1 h2 hget]
  refine ⟨rfl, get_set store now cfg.ttl p.req.ik (.resp pending0), ?_⟩
  rw [stepProc_runH cfg _ now { p with st := .runH } rfl]
  exact ⟨rfl, rfl, rfl⟩

theorem expiredKeyFreshAdmission_w :
    (stepProc ⟨30000, 1⟩ ⟨[("k", .resp pending0, 30000)]⟩ 30001
        ⟨⟨"k", ⟨200, [], some "ok"⟩⟩, .start, 0, 0⟩).2.st = .runH ∧
    (stepProc ⟨30000, 1⟩
        (stepProc ⟨30000, 1⟩ ⟨[("k", .resp pending0, 30000)]⟩ 30001
          ⟨⟨"k", ⟨200, [], some "ok"⟩⟩, .start, 0, 0⟩).1 30001
        (stepProc ⟨30000, 1⟩ ⟨[("k", .resp pending0, 30000)]⟩ 30001
          ⟨⟨"k", ⟨200, [], some "ok"⟩⟩, .start, 0, 0⟩).2).2.invoked = 0 + 1 :=
  ⟨(expiredKeyFreshAdmission ⟨30000, 1⟩ ⟨[("k", .resp pending0, 30000)]⟩ 30001
      ⟨⟨"k", ⟨200, [], some "ok"⟩⟩, .start, 0, 0⟩ 0 (.resp pending0)
      (by decide) (by decide) rfl (by decide) (by decide)).1,
   (expiredKeyFreshAdmission ⟨30000, 1⟩ ⟨[("k", .resp pending0, 30000)]⟩ 30001
      ⟨⟨"k", ⟨200, [], some "ok"⟩⟩, .start, 0, 0⟩ 0 (.resp pending0)
      (by decide) (by decide) rfl (by decide) (by decide)).2.2.1⟩

/-- C9: `responseError` computes `http.StatusText(status)` only to discard it,
so it always forwards `msg` unchanged to `http.Error`; in particular the
follower's lost-entry path responds 500 with an empty body even though
`statusText 500` is the non-empty string `"Internal Server Error"`. -/
theorem lostEntryEmptyBody :
    (∀ msg status, responseError msg status = httpError msg status) ∧
    responseError "" 500 = ⟨500, [], ""⟩ ∧
    statusText 500 = "Internal Server Error" ∧
    (∀ (cfg : Config) (store : Store) (now : Nat) (p : Proc), p.st = .poll →
       getResponse store now p.req.ik = none →
       stepProc cfg store now p =
         (store, { p with st := .done (responseError "" 500) })) :=
  ⟨fun _ _ => rfl, rfl, by decide,
   fun cfg store now p h1 h2 => stepProc_poll_lost cfg store now p h1 h2⟩

theorem lostEntryEmptyBody_w :
    stepProc ⟨30000, 32⟩ ⟨[]⟩ 0 ⟨⟨"k", ⟨200, [], none⟩⟩, .poll, 0, 0⟩ =
      (⟨[]⟩, ⟨⟨"k", ⟨200, [], none⟩⟩, .done (responseError "" 500), 0, 0⟩) ∧
    (responseError "" 500).body = "" ∧
    statusText 500 = "Internal Server Error" :=
  ⟨lostEntryEmptyBody.2.2.2 ⟨30000, 32⟩ ⟨[]⟩ 0
      ⟨⟨"k", ⟨200, [], none⟩⟩, .poll, 0, 0⟩ rfl rfl,
   rfl, lostEntryEmptyBody.2.2.1⟩

/-! ## The cache only ever holds `*response` values (C10) -/

/-- Every item in the cache carries a `*response` value. -/
def StoreAllResp (st : Store) : Prop :=
  ∀ e ∈ st.items, ∃ r, e.2.1 = CacheVal.resp r

lemma allResp_set (st : Store) (now ttl : Nat) (k : String) (r : Response)
    (h : StoreAllResp st) : StoreAllResp (st.set now ttl k (.resp r)) := by
  intro e he
  rcases List.mem_cons.mp he with h1 | h1
  · exact ⟨r, by rw [h1]⟩
  · exact h e (List.mem_of_mem_filter h1)

lemma allResp_add (st : Store) (now ttl : Nat) (k : String) (r : Response)
    (h : StoreAllResp st) : StoreAllResp (st.add now ttl k (.resp r)).1 := by
  unfold Store.add
  split
  · exact h
  · exact allResp_set st now ttl k r h

lemma allResp_replace (st : Store) (now ttl : Nat) (k : String) (r : Response)
    (h : StoreAllResp st) : StoreAllResp (st.replace now ttl k (.resp r)).1 := by
  unfold Store.replace
  split
  · exact h
  · exact allResp_set st now ttl k r h

lemma allResp_stepProc (cfg : Config) (store : Store) (now : Nat) (p : Proc)
    (h : StoreAllResp store) : StoreAllResp (stepProc cfg store now p).1 := by
  obtain ⟨rq, st, inv, sl⟩ := p
  cases st with
  | start =>
    simp only [stepProc]
    split
    · exact h
    · split
      · exact h
      · split <;> exact allResp_add store now cfg.ttl rq.ik pending0 h
  | runH => exact h
  | publish res => exact allResp_replace store now cfg.ttl rq.ik _ h
  | poll =>
    simp only [stepProc]
    split
    · exact h
    · split <;> exact h
  | done out => exact h

lemma allResp_stepSys (cfg : Config) (s : Sys) (a : Action)
    (h : StoreAllResp s.store) : StoreAllResp (stepSys cfg s a).store := by
  cases a with
  | tick => exact h
  | proc j =>
    simp only [stepSys]
    split
    · exact allResp_stepProc cfg s.store s.now (s.procs j) h
    · exact h

lemma lookupItems_mem (k : String) (l : List (String × CacheVal × Nat))
    (v : CacheVal) (e : Nat) (h : lookupItems k l = some (v, e)) :
    (k, v, e) ∈ l := by
  induction l with
  | nil => simp [lookupItems] at h
  | cons a rest ih =>
    obtain ⟨k', v', e'⟩ := a
    by_cases hk : k' = k
    · subst hk
      simp [lookupItems] at h
      simp [h.1, h.2]
    · simp [lookupItems, hk] at h
      exact List.mem_cons_of_mem _ (ih h)

lemma get_mem (st : Store) (now : Nat) (k : String) (v : CacheVal)
    (h : st.get now k = some v) : ∃ e, (k, v, e) ∈ st.items := by
  unfold Store.get Store.lookup at h
  rcases hm : lookupItems k st.items with _ | ⟨v', e'⟩
  · rw [hm] at h; exact absurd h (by simp)
  · rw [hm] at h
    by_cases he : e' < now
    · simp [he] at h
    · simp [he] at h
      exact ⟨e', by rw [← h]; exact lookupItems_mem k st.items v' e' hm⟩

/-- C10: starting from the fresh cache, every value the middleware ever
stores is a `*response` (inserted only by `Add` with the zero `response` and
by `Replace` with a ready one), so `getResponse`'s type-assertion-failure
branch is unreachable: it returns an error exactly when the key is absent or
expired. -/
theorem cacheOnlyResponses (cfg : Config) (n : Nat) (req : Nat → Request)
    (as : List Action) :
    (∀ e ∈ (runSys cfg (initSys n req) as).store.items,
       ∃ r, e.2.1 = CacheVal.resp r) ∧
    (∀ now ik,
       getResponse (runSys cfg (initSys n req) as).store now ik = none ↔
       (runSys cfg (initSys n req) as).store.get now ik = none) := by
  have hall : StoreAllResp (runSys cfg (initSys n req) as).store := by
    refine runSys_inv cfg (P := fun s => StoreAllResp s.store) ?_ as _ ?_
    · exact fun s a h => allResp_stepSys cfg s a h
    · intro e he
      simp [initSys, Store.empty] at he
  refine ⟨hall, ?_⟩
  intro now ik
  constructor
  · intro h
    rcases hg : (runSys cfg (initSys n req) as).store.get now ik with _ | v
    · rfl
    · obtain ⟨e, hmem⟩ :=
        get_mem (runSys cfg (initSys n req) as).store now ik v hg
      obtain ⟨r, hr⟩ := hall (ik, v, e) hmem
      simp only at hr
      rw [hr] at hg
      rw [getResponse, hg] at h
      exact absurd h (by simp)
  · intro h
    rw [getResponse, h]

/-! ## Exactly one executor per key per TTL window (C1) -/

/-- Whether a process has finished `ServeHTTP`. -/
def RState.isTerminal : RState → Bool
  | .done _ => true
  | _ => false

lemma isTerminal_iff (r : RState) :
    r.isTerminal = true ↔ ∃ out, r = .done out := by
  cases r <;> simp [RState.isTerminal]

/-- A process that has not (yet) won admission: at entry or in the poll loop,
with no handler invocation. -/
def Waiting (p : Proc) : Prop :=
  (p.st = .start ∨ p.st = .poll) ∧ p.invoked = 0

/-- Phase A: nobody has attempted admission; the cache is empty. -/
def PhaseA (s : Sys) : Prop :=
  s.store.items = [] ∧
  ∀ j < s.nprocs, (s.procs j).st = .start ∧ (s.procs j).invoked = 0

/-- Phase B: exactly one process won the atomic `Add` and is executing; the
cache holds the pending entry for `K`; every other process is waiting. -/
def PhaseB (cfg : Config) (K : String) (s : Sys) : Prop :=
  (∃ e, cfg.ttl ≤ e ∧ s.store.items = [(K, .resp pending0, e)]) ∧
  ∃ i < s.nprocs,
    (((s.procs i).st = .runH ∧ (s.procs i).invoked = 0) ∨
     ((s.procs i).st = .publish (s.procs i).req.hres ∧
       (s.procs i).invoked = 1)) ∧
    ∀ j < s.nprocs, j ≠ i → Waiting (s.procs j)

/-- Phase C: the executor has published its handler's result and finished;
the cache holds the ready entry; every other process is waiting or has
already replayed the executor's exact output. -/
def PhaseC (cfg : Config) (K : String) (s : Sys) : Prop :=
  ∃ i < s.nprocs, ∃ res : HandlerResult,
    res = (s.procs i).req.hres ∧
    (∃ e, cfg.ttl ≤ e ∧
      s.store.items =
        [(K, .resp (readyOf res.status res.header res.body), e)]) ∧
    (s.procs i).st = .done (execOut res) ∧ (s.procs i).invoked = 1 ∧
    ∀ j < s.nprocs, j ≠ i →
      ((s.procs j).st = .start ∨ (s.procs j).st = .poll ∨
       (s.procs j).st = .done (execOut res)) ∧ (s.procs j).invoked = 0

/-- The global invariant of `N` concurrent requests sharing key `K` inside
one TTL window. -/
def KeyedInv (cfg : Config) (K : String) (s : Sys) : Prop :=
  (∀ j < s.nprocs, (s.procs j).req.ik = K) ∧
  (PhaseA s ∨ PhaseB cfg K s ∨ PhaseC cfg K s)

lemma get_single (K : String) (v : CacheVal) (e now : Nat) (h : ¬ e < now) :
    Store.get ⟨[(K, v, e)]⟩ now K = some v := by
  simp [Store.get, Store.lookup, lookupItems, h]

lemma set_single (K : String) (v v' : CacheVal) (e now ttl : Nat) :
    Store.set ⟨[(K, v, e)]⟩ now ttl K v' = ⟨[(K, v', now + ttl)]⟩ := by
  simp [Store.set]

lemma keyed_step (cfg : Config) (K : String)
    (hK1 : K ≠ "") (hK2 : ¬ K.length < cfg.minIKLen)
    (s : Sys) (a : Action) (hnow : s.now ≤ cfg.ttl)
    (h : KeyedInv cfg K s) : KeyedInv cfg K (stepSys cfg s a) := by
  obtain ⟨hkey, hph⟩ := h
  cases a with
  | tick => exact ⟨hkey, hph⟩
  | proc j =>
    simp only [stepSys]
    split
    case isFalse => exact ⟨hkey, hph⟩
    case isTrue hj =>
    have hkj : (s.procs j).req.ik = K := hkey j hj
    have hkey' : ∀ (Y : Proc), Y.req = (s.procs j).req →
        ∀ j' < s.nprocs, (Function.update s.procs j Y j').req.ik = K := by
      intro Y hY j' hj'
      by_cases hjj : j' = j
      · subst hjj; rw [Function.update_same, hY]; exact hkey j' hj'
      · rw [Function.update_noteq hjj]; exact hkey j' hj'
    rcases hph with ⟨hstore, hall⟩ | ⟨⟨e, he, hstore⟩, i, hi, hexec, hwait⟩ |
      ⟨i, hi, res, hres, ⟨e, he, hstore⟩, hsti, hinvi, hoth⟩
    · -- Phase A: process j wins admission
      have hstj := (hall j hj).1
      have hinvj := (hall j hj).2
      have hget : Store.get s.store s.now (s.procs j).req.ik = none := by
        simp [Store.get, Store.lookup, hstore, hkj, lookupItems]
      have hstep := stepProc_start_fresh cfg s.store s.now (s.procs j) hstj
        (by rw [hkj]; exact hK1) (by rw [hkj]; exact hK2) hget
      rw [hstep]
      refine ⟨hkey' _ rfl, Or.inr (Or.inl ⟨⟨s.now + cfg.ttl, by omega, ?_⟩,
        j, hj, Or.inl ⟨?_, ?_⟩, ?_⟩)⟩
      · simp [Store.set, hstore, hkj]
      · dsimp only
        rw [Function.update_same]
      · dsimp only
        rw [Function.update_same]
        exact hinvj
      · intro j' hj' hne
        dsimp only
        rw [Function.update_noteq hne]
        exact ⟨Or.inl (hall j' hj').1, (hall j' hj').2⟩
    · -- Phase B: pending entry present, executor i active
      have hvalid : ¬ e < s.now := by omega
      have hgetK : Store.get s.store s.now K = some (.resp pending0) := by
        have hs : s.store = ⟨[(K, .resp pending0, e)]⟩ := congrArg Store.mk hstore
        rw [hs]
        exact get_single K (.resp pending0) e s.now hvalid
      by_cases hji : j = i
      · subst hji
        rcases hexec with ⟨hrun, hinv0⟩ | ⟨hpub, hinv1⟩
        · -- executor invokes the handler
          have hstep := stepProc_runH cfg s.store s.now (s.procs j) hrun
          rw [hstep]
          refine ⟨hkey' _ rfl, Or.inr (Or.inl ⟨⟨e, he, hstore⟩, j, hj,
            Or.inr ⟨?_, ?_⟩, ?_⟩)⟩
          · dsimp only
            rw [Function.update_same]
          · dsimp only
            rw [Function.update_same]
            simp [hinv0]
          · intro j' hj' hne
            dsimp only
            rw [Function.update_noteq hne]
            exact hwait j' hj' hne
        · -- executor publishes via Replace
          have hstep := stepProc_publish cfg s.store s.now (s.procs j)
            ((s.procs j).req.hres) hpub
          have hrep : Store.replace s.store s.now cfg.ttl (s.procs j).req.ik
              (.resp (readyOf (s.procs j).req.hres.status
                (s.procs j).req.hres.header (s.procs j).req.hres.body)) =
              (Store.set s.store s.now cfg.ttl (s.procs j).req.ik
                (.resp (readyOf (s.procs j).req.hres.status
                  (s.procs j).req.hres.header (s.procs j).req.hres.body)),
               true) := by
            unfold Store.replace
            rw [hkj, hgetK]
          rw [hstep, hrep]
          refine ⟨hkey' _ rfl, Or.inr (Or.inr ⟨j, hj, (s.procs j).req.hres,
            ?_, ⟨s.now + cfg.ttl, by omega, ?_⟩, ?_, ?_, ?_⟩)⟩
          · dsimp only
            rw [Function.update_same]
          · simp [Store.set, hstore, hkj]
          · dsimp only
            rw [Function.update_same]
          · dsimp only
            rw [Function.update_same]
            exact hinv1
          · intro j' hj' hne
            dsimp only
            rw [Function.update_noteq hne]
            obtain ⟨hw1, hw2⟩ := hwait j' hj' hne
            exact ⟨hw1.imp id Or.inl, hw2⟩
      · -- a waiter moves while the entry is pending
        obtain ⟨hwst, hwinv⟩ := hwait j hj hji
        have hBsame : ∀ (Y : Proc), Y.req = (s.procs j).req → Waiting Y →
            KeyedInv cfg K ⟨s.store, s.now, s.nprocs,
              Function.update s.procs j Y⟩ := by
          intro Y hY hWY
          refine ⟨hkey' _ hY, Or.inr (Or.inl ⟨⟨e, he, hstore⟩, i, hi,
            ?_, ?_⟩)⟩
          · dsimp only
            rw [Function.update_noteq (Ne.symm hji)]
            exact hexec
          · intro j' hj' hne
            dsimp only
            by_cases hjj : j' = j
            · subst hjj
              rw [Function.update_same]
              exact hWY
            · rw [Function.update_noteq hjj]
              exact hwait j' hj' hne
        rcases hwst with hstart | hpoll
        · have hstep := stepProc_start_dup cfg s.store s.now (s.procs j)
            (.resp pending0) hstart (by rw [hkj]; exact hK1)
            (by rw [hkj]; exact hK2) (by rw [hkj]; exact hgetK)
          rw [hstep]
          exact hBsame _ rfl ⟨Or.inr rfl, hwinv⟩
        · have hgr : getResponse s.store s.now (s.procs j).req.ik =
              some pending0 := by
            unfold getResponse
            rw [hkj, hgetK]
          have hstep := stepProc_poll_pending cfg s.store s.now (s.procs j)
            pending0 hpoll hgr rfl
          rw [hstep]
          exact hBsame _ rfl ⟨Or.inr rfl, hwinv⟩
    · -- Phase C: ready entry present
      have hvalid : ¬ e < s.now := by omega
      have hgetK : Store.get s.store s.now K =
          some (.resp (readyOf res.status res.header res.body)) := by
        have hs : s.store =
            ⟨[(K, .resp (readyOf res.status res.header res.body), e)]⟩ :=
          congrArg Store.mk hstore
        rw [hs]
        exact get_single K _ e s.now hvalid
      by_cases hji : j = i
      · subst hji
        have hstep := stepProc_done cfg s.store s.now (s.procs j) _ hsti
        rw [hstep]
        dsimp only
        rw [Function.update_eq_self]
        exact ⟨hkey, Or.inr (Or.inr ⟨j, hj, res, hres, ⟨e, he, hstore⟩,
          hsti, hinvi, hoth⟩)⟩
      · -- a non-executor moves while the entry is ready
        obtain ⟨hwst, hwinv⟩ := hoth j hj hji
        have hCsame : ∀ (Y : Proc), Y.req = (s.procs j).req →
            (Y.st = .start ∨ Y.st = .poll ∨ Y.st = .done (execOut res)) →
            Y.invoked = 0 →
            KeyedInv cfg K ⟨s.store, s.now, s.nprocs,
              Function.update s.procs j Y⟩ := by
          intro Y hY hYst hYinv
          refine ⟨hkey' _ hY, Or.inr (Or.inr ⟨i, hi, res, ?_,
            ⟨e, he, hstore⟩, ?_, ?_, ?_⟩)⟩
          · dsimp only
            rw [Function.update_noteq (Ne.symm hji)]
            exact hres
          · dsimp only
            rw [Function.update_noteq (Ne.symm hji)]
            exact hsti
          · dsimp only
            rw [Function.update_noteq (Ne.symm hji)]
            exact hinvi
          · intro j' hj' hne
            dsimp only
            by_cases hjj : j' = j
            · subst hjj
              rw [Function.update_same]
              exact ⟨hYst, hYinv⟩
            · rw [Function.update_noteq hjj]
              exact hoth j' hj' hne
        rcases hwst with hstart | hpoll | hdone
        · have hstep := stepProc_start_dup cfg s.store s.now (s.procs j)
            (.resp (readyOf res.status res.header res.body)) hstart
            (by rw [hkj]; exact hK1) (by rw [hkj]; exact hK2)
            (by rw [hkj]; exact hgetK)
          rw [hstep]
          exact hCsame _ rfl (Or.inr (Or.inl rfl)) hwinv
        · have hgr : getResponse s.store s.now (s.procs j).req.ik =
              some (readyOf res.status res.header res.body) := by
            unfold getResponse
            rw [hkj, hgetK]
          have hstep := stepProc_poll_ready cfg s.store s.now (s.procs j)
            (readyOf res.status res.header res.body) hpoll hgr rfl
          rw [hstep]
          exact hCsame _ rfl (Or.inr (Or.inr rfl)) hwinv
        · have hstep := stepProc_done cfg s.store s.now (s.procs j) _ hdone
          rw [hstep]
          dsimp only
          rw [Function.update_eq_self]
          exact ⟨hkey, Or.inr (Or.inr ⟨i, hi, res, hres, ⟨e, he, hstore⟩,
            hsti, hinvi, hoth⟩)⟩

lemma stepSys_now_proc (cfg : Config) (s : Sys) (i : Nat) :
    (stepSys cfg s (.proc i)).now = s.now := by
  simp only [stepSys]
  split <;> rfl

lemma keyed_run (cfg : Config) (K : String)
    (hK1 : K ≠ "") (hK2 : ¬ K.length < cfg.minIKLen) :
    ∀ (as : List Action) (s : Sys), s.now + countTicks as ≤ cfg.ttl →
    KeyedInv cfg K s → KeyedInv cfg K (runSys cfg s as) := by
  intro as
  induction as with
  | nil => intro s _ h; exact h
  | cons a rest ih =>
    intro s hb h
    have hnow : s.now ≤ cfg.ttl := le_trans (Nat.le_add_right _ _) hb
    rw [runSys]
    refine ih (stepSys cfg s a) ?_ (keyed_step cfg K hK1 hK2 s a hnow h)
    cases a with
    | tick =>
      have hn : (stepSys cfg s .tick).now = s.now + 1 := rfl
      rw [hn]
      simp only [countTicks] at hb
      omega
    | proc i =>
      rw [stepSys_now_proc]
      simp only [countTicks] at hb
      exact hb

/-- C1: among any `N ≥ 1` concurrent requests sharing a valid key `K`,
started against a fresh cache and interleaved by an arbitrary schedule whose
total elapsed time stays within one TTL window, if every request has
finished, then exactly one of them (the executor) invoked the downstream
handler, exactly once; every other request invoked it zero times; and all
`N` callers finished with the identical output — the executor's handler
result's status, headers and body. -/
theorem exactlyOneExecutor (cfg : Config) (K : String) (n : Nat)
    (req : Nat → Request) (as : List Action)
    (hK1 : K ≠ "") (hK2 : ¬ K.length < cfg.minIKLen)
    (hreq : ∀ i < n, (req i).ik = K) (hn : 1 ≤ n)
    (hticks : countTicks as ≤ cfg.ttl)
    (hterm : ∀ j < n,
      ((runSys cfg (initSys n req) as).procs j).st.isTerminal = true) :
    ∃ i < n, ∃ res : HandlerResult,
      res = ((runSys cfg (initSys n req) as).procs i).req.hres ∧
      ((runSys cfg (initSys n req) as).procs i).invoked = 1 ∧
      (∀ j < n, j ≠ i →
        ((runSys cfg (initSys n req) as).procs j).invoked = 0) ∧
      (∀ j < n,
        ((runSys cfg (initSys n req) as).procs j).st =
          .done (execOut res)) := by
  have hnp : (runSys cfg (initSys n req) as).nprocs = n := by
    rw [runSys_nprocs]
    rfl
  have hinit : KeyedInv cfg K (initSys n req) := by
    refine ⟨?_, Or.inl ⟨rfl, ?_⟩⟩
    · intro j hj
      exact hreq j hj
    · intro j hj
      exact ⟨rfl, rfl⟩
  have hinv : KeyedInv cfg K (runSys cfg (initSys n req) as) :=
    keyed_run cfg K hK1 hK2 as (initSys n req)
      (by simpa [initSys] using hticks) hinit
  obtain ⟨hkeys, hph⟩ := hinv
  rcases hph with ⟨hstore, hall⟩ | ⟨hB1, i, hi, hexec, hwait⟩ |
    ⟨i, hi, res, hres, hB, hsti, hinvi, hoth⟩
  · exfalso
    have h0 : ((runSys cfg (initSys n req) as).procs 0).st = .start :=
      (hall 0 (by omega)).1
    have ht := hterm 0 (by omega)
    rw [h0] at ht
    simp [RState.isTerminal] at ht
  · exfalso
    have ht := hterm i (by omega)
    rcases hexec with ⟨h1, _⟩ | ⟨h1, _⟩ <;> rw [h1] at ht <;>
      simp [RState.isTerminal] at ht
  · refine ⟨i, by omega, res, hres, hinvi, ?_, ?_⟩
    · intro j hj hne
      exact (hoth j (by omega) hne).2
    · intro j hj
      by_cases hji : j = i
      · subst hji
        exact hsti
      · rcases (hoth j (by omega) hji).1 with h1 | h1 | h1
        · exfalso
          have ht := hterm j hj
          rw [h1] at ht
          simp [RState.isTerminal] at ht
        · exfalso
          have ht := hterm j hj
          rw [h1] at ht
          simp [RState.isTerminal] at ht
        · exact h1

theorem exactlyOneExecutor_w :
    ∃ i < 2, ∃ res : HandlerResult,
      res = ((runSys ⟨30000, 1⟩
          (initSys 2 fun _ => ⟨"k", ⟨201, [("X", ["1"])], some "b"⟩⟩)
          [.proc 0, .proc 0, .proc 0, .proc 1, .proc 1]).procs i).req.hres ∧
      ((runSys ⟨30000, 1⟩
          (initSys 2 fun _ => ⟨"k", ⟨201, [("X", ["1"])], some "b"⟩⟩)
          [.proc 0, .proc 0, .proc 0, .proc 1, .proc 1]).procs i).invoked = 1 ∧
      (∀ j < 2, j ≠ i →
        ((runSys ⟨30000, 1⟩
            (initSys 2 fun _ => ⟨"k", ⟨201, [("X", ["1"])], some "b"⟩⟩)
            [.proc 0, .proc 0, .proc 0, .proc 1, .proc 1]).procs j).invoked =
          0) ∧
      (∀ j < 2,
        ((runSys ⟨30000, 1⟩
            (initSys 2 fun _ => ⟨"k", ⟨201, [("X", ["1"])], some "b"⟩⟩)
            [.proc 0, .proc 0, .proc 0, .proc 1, .proc 1]).procs j).st =
          .done (execOut res)) :=
  exactlyOneExecutor ⟨30000, 1⟩ "k" 2
    (fun _ => ⟨"k", ⟨201, [("X", ["1"])], some "b"⟩⟩)
    [.proc 0, .proc 0, .proc 0, .proc 1, .proc 1]
    (by decide) (by decide) (fun i _ => rfl) (by omega) (by decide)
    (by decide)

end Idempotency
